import Mathlib

/-!
Verification of the row-normalization logic of the property_dashboard
repository (src/parse_trident_properties.py and src/extract_properties.py).

The Python code is shallowly embedded: cells are `Option String`
(`none` models a missing cell / pandas NaN), rows are structures or
association lists, the numeric value produced by Python `float()` is
modelled as an exact fraction (integer numerator over a power-of-ten
denominator), and every fallible operation returns `Option`.
-/

namespace PropertyDashboard

/-! ## Character and string helpers (models of Python str operations) -/

/-- Whitespace characters recognised by the model of Python `str.strip` /
`str.split`. -/
def isWsChar (c : Char) : Bool :=
  c = ' ' || c = '\t' || c = '\n' || c = '\r'

/-- Model of Python `str.strip()` on a list of characters. -/
def trimWs (l : List Char) : List Char :=
  ((l.dropWhile isWsChar).reverse.dropWhile isWsChar).reverse

/-- ASCII lower-casing of one character, model of Python `str.lower()`. -/
def lowerChar (c : Char) : Char :=
  if 65 ≤ c.toNat ∧ c.toNat ≤ 90 then Char.ofNat (c.toNat + 32) else c

/-- Lower-case a whole character list. -/
def lowerL (l : List Char) : List Char := l.map lowerChar

/-- Decimal digit test (`'0'` to `'9'`). -/
def isDigitChar (c : Char) : Bool :=
  48 ≤ c.toNat && c.toNat ≤ 57

/-- Numeric value of a digit character. -/
def digitVal (c : Char) : Nat := c.toNat - 48

/-- The digit character for a value below ten (total, clamping at `'9'`). -/
def digitChar : Nat → Char
  | 0 => '0' | 1 => '1' | 2 => '2' | 3 => '3' | 4 => '4'
  | 5 => '5' | 6 => '6' | 7 => '7' | 8 => '8' | _ => '9'

/-- Value of a most-significant-first digit list. -/
def valDigits (l : List Char) : Nat :=
  l.foldl (fun a c => 10 * a + digitVal c) 0

/-- Substring test, model of Python's `pat in text` on strings. -/
def containsSub (pat : List Char) : List Char → Bool
  | [] => pat.isEmpty
  | c :: t => pat.isPrefixOf (c :: t) || containsSub pat t

/-- Case-insensitive substring test: Python's `a in b` after `.lower()`
on both sides. -/
def isSubstrCI (pat text : List Char) : Bool :=
  containsSub (lowerL pat) (lowerL text)

/-- A pandas cell: `none` is NaN / missing; Python `str()` of NaN is
the text `nan`. -/
def cellStr : Option String → String
  | none => "nan"
  | some s => s

/-! ## Model of Python `float()` on strings, with exact arithmetic

The parsed numeric value is kept exactly as a fraction whose denominator
is a power of ten; `truncF` models Python's `int()` truncation toward
zero applied to that value. -/

/-- An exact fraction: integer numerator over a positive denominator. -/
structure Frac where
  num : Int
  den : Nat
deriving DecidableEq, Repr

/-- The fraction for a sign, integer digits and fraction digits. -/
def fracOfParts (neg : Bool) (ip fp : List Char) : Frac :=
  let n : Int := (valDigits ip * 10 ^ fp.length + valDigits fp : Nat)
  ⟨if neg then -n else n, 10 ^ fp.length⟩

/-- Scale a fraction by a power of ten (the exponent part of a float
literal). -/
def applyExp (f : Frac) (e : Int) : Frac :=
  if e < 0 then ⟨f.num, f.den * 10 ^ e.natAbs⟩ else ⟨f.num * 10 ^ e.toNat, f.den⟩

/-- Multiply a fraction by 1000, for the `k` price suffix. -/
def mul1000 (f : Frac) : Frac := ⟨f.num * 1000, f.den⟩

/-- Python `int()` applied to a numeric value: truncation toward zero. -/
def truncF (f : Frac) : Int := Int.tdiv f.num (f.den : Int)

/-- Consume an optional leading sign; returns (isNegative, rest). -/
def splitSign (l : List Char) : Bool × List Char :=
  match l with
  | c :: t => if c = '-' then (true, t) else if c = '+' then (false, t) else (false, l)
  | [] => (false, [])

/-- Parse the exponent part after `e`/`E`: optional sign then digits,
which must exhaust the input. -/
def parseExp (l : List Char) : Option Int :=
  let s := splitSign l
  let ds := s.2.takeWhile isDigitChar
  let rest := s.2.dropWhile isDigitChar
  if ds = [] ∨ rest ≠ [] then none
  else some (if s.1 then -(valDigits ds : Int) else (valDigits ds : Int))

/-- Core of the `float()` model: sign, integer digits, optional fraction,
optional exponent; the whole input must be consumed. -/
def parseFloatCore (l : List Char) : Option Frac :=
  let s := splitSign l
  let ip := s.2.takeWhile isDigitChar
  let l2 := s.2.dropWhile isDigitChar
  let fpr : List Char × List Char :=
    match l2 with
    | c :: t => if c = '.' then (t.takeWhile isDigitChar, t.dropWhile isDigitChar) else ([], l2)
    | [] => ([], [])
  let fp := fpr.1
  let l3 := fpr.2
  if ip = [] ∧ fp = [] then none
  else
    let m := fracOfParts s.1 ip fp
    match l3 with
    | [] => some m
    | c :: t => if c = 'e' ∨ c = 'E' then (parseExp t).map (fun e => applyExp m e) else none

/-- Model of Python `float(str)`: surrounding whitespace is ignored. -/
def pyFloat (l : List Char) : Option Frac := parseFloatCore (trimWs l)

/-! ## `parse_price` (src/parse_trident_properties.py lines 164-181) -/

/-- The cleaned price text: every `$` and `,` removed, then stripped. -/
def cleanPrice (l : List Char) : List Char :=
  trimWs (l.filter (fun c => !(c = '$' || c = ',')))

/-- Does the lower-cased text end with `k`?  Model of
`price_str.lower().endswith('k')`. -/
def endsWithK (l : List Char) : Bool :=
  match (lowerL l).getLast? with
  | none => false
  | some c => c = 'k'

/-- Embedding of `parse_price`: `none` input is a NaN cell; empty text is
absent; `$`/`,` are removed; a trailing `k`/`K` multiplies the parsed
prefix by 1000; the result is truncated to an integer and every parse
failure yields `none`. -/
def parse_price (v : Option String) : Option Int :=
  match v with
  | none => none
  | some s =>
    if trimWs s.data = [] then none
    else
      let cleaned := cleanPrice s.data
      if endsWithK cleaned then
        (pyFloat cleaned.dropLast).map (fun q => truncF (mul1000 q))
      else
        (pyFloat cleaned).map truncF

/-! ## `parse_date` (src/parse_trident_properties.py lines 183-203)

The code tries the `strptime` patterns `%Y-%m-%d`, `%m/%d/%Y`, `%m-%d-%Y`,
`%Y/%m/%d` in order on the first whitespace token and re-emits the first
hit through `strftime('%Y-%m-%d')`.  In the model `%Y` matches exactly
four digits, `%m` and `%d` match one or two digits, and the parsed values
must form a valid proleptic-Gregorian calendar date in years 1-9999
(`datetime` raises otherwise).  The output is zero-padded
`YYYY-MM-DD`. -/

/-- Gregorian leap-year test. -/
def isLeap (y : Nat) : Bool :=
  y % 4 = 0 && (y % 100 ≠ 0 || y % 400 = 0)

/-- Days in a month of a given year. -/
def daysInMonth (y m : Nat) : Nat :=
  if m = 2 then (if isLeap y then 29 else 28)
  else if m = 4 ∨ m = 6 ∨ m = 9 ∨ m = 11 then 30
  else 31

/-- Validity check performed by `datetime` construction. -/
def validYMD (y m d : Nat) : Bool :=
  1 ≤ y && y ≤ 9999 && 1 ≤ m && m ≤ 12 && 1 ≤ d && d ≤ daysInMonth y m

/-- Take a maximal run of digits. -/
def takeNum (l : List Char) : List Char × List Char :=
  (l.takeWhile isDigitChar, l.dropWhile isDigitChar)

/-- Match `%Y<sep>%m<sep>%d` against the whole input. -/
def matchYMD (sep : Char) (l : List Char) : Option (Nat × Nat × Nat) :=
  let p1 := takeNum l
  if p1.1.length ≠ 4 then none
  else
    match p1.2 with
    | [] => none
    | c :: l2 =>
      if c ≠ sep then none
      else
        let p2 := takeNum l2
        if p2.1.length = 0 ∨ 2 < p2.1.length then none
        else
          match p2.2 with
          | [] => none
          | c2 :: l4 =>
            if c2 ≠ sep then none
            else
              let p3 := takeNum l4
              if p3.1.length = 0 ∨ 2 < p3.1.length ∨ p3.2 ≠ [] then none
              else some (valDigits p1.1, valDigits p2.1, valDigits p3.1)

/-- Match `%m<sep>%d<sep>%Y` against the whole input; returns (y, m, d). -/
def matchMDY (sep : Char) (l : List Char) : Option (Nat × Nat × Nat) :=
  let p1 := takeNum l
  if p1.1.length = 0 ∨ 2 < p1.1.length then none
  else
    match p1.2 with
    | [] => none
    | c :: l2 =>
      if c ≠ sep then none
      else
        let p2 := takeNum l2
        if p2.1.length = 0 ∨ 2 < p2.1.length then none
        else
          match p2.2 with
          | [] => none
          | c2 :: l4 =>
            if c2 ≠ sep then none
            else
              let p3 := takeNum l4
              if p3.1.length ≠ 4 ∨ p3.2 ≠ [] then none
              else some (valDigits p3.1, valDigits p1.1, valDigits p2.1)

/-- Reject a candidate triple that does not form a real date. -/
def checkYMD (t : Nat × Nat × Nat) : Option (Nat × Nat × Nat) :=
  if validYMD t.1 t.2.1 t.2.2 then some t else none

/-- Try the four `strptime` formats in the order used by the code. -/
def tryFormats (l : List Char) : Option (Nat × Nat × Nat) :=
  ((matchYMD '-' l).bind checkYMD).orElse fun _ =>
    ((matchMDY '/' l).bind checkYMD).orElse fun _ =>
      ((matchMDY '-' l).bind checkYMD).orElse fun _ =>
        (matchYMD '/' l).bind checkYMD

/-- Two-digit zero-padded rendering (`%m`, `%d`). -/
def pad2 (n : Nat) : List Char := [digitChar (n / 10), digitChar (n % 10)]

/-- Four-digit zero-padded rendering (`%Y` in `YYYY-MM-DD` output). -/
def pad4 (n : Nat) : List Char :=
  [digitChar (n / 1000), digitChar (n / 100 % 10), digitChar (n / 10 % 10), digitChar (n % 10)]

/-- Canonical `YYYY-MM-DD` rendering of a date, the `strftime` output. -/
def renderYMD (y m d : Nat) : List Char :=
  pad4 y ++ '-' :: (pad2 m ++ '-' :: pad2 d)

/-- Embedding of `parse_date` on string cells: NaN or empty or literal
`nan` text yields `none`; otherwise the first whitespace token is matched
against the four formats and the first valid hit is re-emitted in
`YYYY-MM-DD` form.  (The `datetime`-instance fast path of the source
concerns non-string cells, which are outside this string model.) -/
def parse_date (v : Option String) : Option String :=
  match v with
  | none => none
  | some s =>
    let ds := trimWs s.data
    if ds = [] ∨ lowerL ds = "nan".data then none
    else
      let tok := ds.takeWhile (fun c => !isWsChar c)
      match tryFormats tok with
      | some t => some (String.mk (renderYMD t.1 t.2.1 t.2.2))
      | none => none

/-! ## Status, property type, rental flag (src/parse_trident_properties.py) -/

/-- Status normalization of `parse_trident_properties` (lines 51-58):
`pre` becomes `Hold`; `uc` or anything containing `contract` becomes
`Under Contract`; `nan` or empty becomes `Active`; any other text is kept
(stripped) verbatim. -/
def resolveStatusTrident (raw : String) : String :=
  let s := trimWs raw.data
  let ls := lowerL s
  if ls = "pre".data then "Hold"
  else if ls = "uc".data ∨ containsSub "contract".data ls then "Under Contract"
  else if ls = "nan".data ∨ s = [] then "Active"
  else String.mk s

/-- Property-type classification (lines 79-88): `single` wins first, then
`duplex`/`2 family`, then `family`/`multi`, else `Single Family`. -/
def propertyTypeOf (raw : String) : String :=
  let t := lowerL (trimWs raw.data)
  if containsSub "single".data t then "Single Family"
  else if containsSub "duplex".data t ∨ containsSub "2 family".data t then "Duplex"
  else if containsSub "family".data t ∨ containsSub "multi".data t then "Commercial"
  else "Single Family"

/-- Rental flag (lines 103-104): stripped lower-cased text must be one of
`y`, `yes`, `true`, `1`. -/
def isRentedOf (raw : String) : Bool :=
  let s := lowerL (trimWs raw.data)
  s = "y".data ∨ s = "yes".data ∨ s = "true".data ∨ s = "1".data

/-! ## Row and record types for `parse_trident_properties` -/

/-- One row of the `List of Properties` sheet; each cell is `none` for
NaN / missing. -/
structure TridentRow where
  address : Option String
  status : Option String
  singleMulti : Option String
  currentList : Option String
  startingList : Option String
  ucPrice : Option String
  listingDate : Option String
  closingDate : Option String
  rented : Option String
deriving DecidableEq, Repr

/-- The fields of the emitted property object that are derived from the
row (identifier, client, agent, notes, coordinates and timestamps are
constants or uuid/clock/hash values, outside the data model under
verification). -/
structure PropRecord where
  address : String
  status : String
  propertyType : String
  workflowType : String
  underContractPrice : Option Int
  startingListPrice : Option Int
  currentListPrice : Option Int
  listingDate : Option String
  closingDate : Option String
  isRented : Bool
deriving DecidableEq, Repr

/-- Python's `a or b` on two optional prices: `None` and `0` are falsy. -/
def pyOr (a b : Option Int) : Option Int :=
  if a = none ∨ a = some 0 then b else a

/-- Embedding of the body of the row loop of `parse_trident_properties`
(lines 37-132): the address guards, then the field derivations, producing
`none` when the row is skipped. -/
def processTridentRow (r : TridentRow) : Option PropRecord :=
  match r.address with
  | none => none
  | some a0 =>
    let address := trimWs a0.data
    if address = [] then none
    else if lowerL address = "nan".data then none
    else
      let cp := parse_price r.currentList
      let sp := parse_price r.startingList
      let pt := propertyTypeOf (cellStr r.singleMulti)
      some
        { address := String.mk address
          status := resolveStatusTrident (cellStr r.status)
          propertyType := pt
          workflowType := if pt = "Duplex" ∨ pt = "Commercial" then "Investor" else "Conventional"
          underContractPrice := parse_price r.ucPrice
          startingListPrice := sp
          currentListPrice := pyOr cp sp
          listingDate := parse_date r.listingDate
          closingDate := parse_date r.closingDate
          isRented := isRentedOf (cellStr r.rented) }

/-! ## Task generation (src/parse_trident_properties.py lines 221-267) -/

/-- An auto-generated follow-up task. -/
structure TaskRec where
  id : String
  title : String
  description : String
  dueDate : String
  priority : String
  status : String
  category : String
  propertyId : String
  taskType : String
  isAutoGenerated : Bool
deriving DecidableEq, Repr

/-- Embedding of `generate_tasks_for_property`: one fixed task for the
statuses `Hold`, `Active` and `Under Contract`, nothing otherwise.  The
due date is the clock value `today`. -/
def generate_tasks_for_property (pid st today : String) : List TaskRec :=
  if st = "Hold" then
    [{ id := pid ++ "_task_1"
       title := "Complete Pre-Listing Preparation"
       description := "Property is on hold - complete all pre-listing requirements"
       dueDate := today, priority := "High", status := "Pending"
       category := "Listing Prep", propertyId := pid
       taskType := "listing-prep", isAutoGenerated := true }]
  else if st = "Active" then
    [{ id := pid ++ "_task_2"
       title := "Monitor Active Listing Performance"
       description := "Track showing activity and market response"
       dueDate := today, priority := "Medium", status := "Pending"
       category := "Listing Prep", propertyId := pid
       taskType := "listing-prep", isAutoGenerated := true }]
  else if st = "Under Contract" then
    [{ id := pid ++ "_task_3"
       title := "Manage Contract Contingencies"
       description := "Track inspection, appraisal, and financing deadlines"
       dueDate := today, priority := "Urgent", status := "Pending"
       category := "Under Contract", propertyId := pid
       taskType := "under-contract", isAutoGenerated := true }]
  else []

/-! ## The batch loop skeleton (lines 37-142)

Each row's `try` body either completes, yielding a property together
with its generated tasks, or is aborted (the address guards, or a raised
exception caught by the per-row `except`), which contributes nothing;
the loop accumulates the successful outcomes in row order. -/

/-- Fold the per-row outcomes exactly as the loop accumulates
`properties` and `tasks`; a `none` outcome (skipped or failed row)
leaves the accumulators untouched. -/
def runBatch (outcomes : List (Option (PropRecord × List TaskRec))) :
    List PropRecord × List TaskRec :=
  outcomes.foldl
    (fun acc o =>
      match o with
      | none => acc
      | some pt => (acc.1 ++ [pt.1], acc.2 ++ pt.2)) ([], [])

/-! ## `process_sheet_data` (src/extract_properties.py lines 50-152) -/

/-- Inner column loop of the field-resolution heuristic: the value of the
first column whose label case-insensitively contains the synonym. -/
def findCol (f : List Char) : List (List Char × List Char) → Option (List Char)
  | [] => none
  | p :: rest => if isSubstrCI f p.1 then some p.2 else findCol f rest

/-- Outer synonym loop: first synonym that matches some column wins. -/
def resolveField (syns : List (List Char)) (row : List (List Char × List Char)) :
    Option (List Char) :=
  match syns with
  | [] => none
  | f :: fs =>
    match findCol f row with
    | some v => some v
    | none => resolveField fs row

/-- Synonym list for the address field. -/
def addressSyns : List (List Char) :=
  ["address".data, "property_address".data, "street_address".data,
   "location".data, "property".data]

/-- Synonym list for the client field. -/
def clientSyns : List (List Char) :=
  ["client".data, "seller".data, "owner".data, "client_name".data]

/-- Synonym list for the agent field. -/
def agentSyns : List (List Char) :=
  ["agent".data, "listing_agent".data, "selling_agent".data, "realtor".data]

/-- Synonym list for the price field. -/
def priceSyns : List (List Char) :=
  ["price".data, "list_price".data, "listing_price".data,
   "asking_price".data, "amount".data]

/-- Synonym list for the status field. -/
def statusSyns : List (List Char) :=
  ["status".data, "listing_status".data, "property_status".data]

/-- The value stored under `list_price` by `process_sheet_data`
(src/extract_properties.py lines 103-114): `None` for an empty cleaned
text, the `float()` value (unconverted, no truncation) when it parses,
and otherwise — the `except` branch of line 111 — the cleaned raw text
itself. -/
inductive SheetPrice where
  | absent : SheetPrice
  | num : Frac → SheetPrice
  | raw : String → SheetPrice
deriving DecidableEq, Repr

/-- Price handling of the sheet path: strip `$`/`,` and whitespace, then
`float(price_val) if price_val else None`, storing the cleaned string on
a parse failure.  There is no `k` suffix handling on this path. -/
def sheetPriceOf (v : List Char) : SheetPrice :=
  let pv := cleanPrice v
  if pv = [] then SheetPrice.absent
  else
    match pyFloat pv with
    | some q => SheetPrice.num q
    | none => SheetPrice.raw (String.mk pv)

/-- Sheet-name fallback for an unset or empty status (lines 132-143). -/
def sheetFallback (sheet : String) : String :=
  let ls := lowerL sheet.data
  if containsSub "active".data ls then "Active"
  else if containsSub "contract".data ls then "Under Contract"
  else if containsSub "pending".data ls then "Pending"
  else if containsSub "closed".data ls then "Closed"
  else "Active"

/-- Final status of a sheet record: the stripped resolved column value
when present and non-empty, otherwise the sheet-name fallback.  No
keyword normalization is applied on this path. -/
def resolveStatusSheet (rawOpt : Option (List Char)) (sheet : String) : String :=
  match rawOpt with
  | none => sheetFallback sheet
  | some v =>
    let s := trimWs v
    if s = [] then sheetFallback sheet else String.mk s

/-- The fields of a `process_sheet_data` record derived from the row
(`raw_data` and `row_number` are bookkeeping outside the model).  A
`none` field means the key is absent from the emitted mapping. -/
structure SheetRecord where
  source_sheet : String
  address : Option String
  client_name : Option String
  selling_agent : Option String
  list_price : Option SheetPrice
  status : String
  workflow_type : String
deriving DecidableEq, Repr

/-- `process_sheet_data` never writes a `propertyType` key: looking that
field up in an emitted sheet record always yields absence. -/
def sheetRecPropertyType (_ : SheetRecord) : Option String := none

/-- Embedding of the body of the row loop of `process_sheet_data`
(lines 60-145); a row is an association list of column label to cell
text (after `fillna('')`), in column-iteration order. -/
def processSheetRow (row : List (String × String)) (sheet : String) : SheetRecord :=
  let rowL : List (List Char × List Char) := row.map fun p => (p.1.data, p.2.data)
  { source_sheet := sheet
    address := (resolveField addressSyns rowL).map fun v => String.mk (trimWs v)
    client_name := (resolveField clientSyns rowL).map fun v => String.mk (trimWs v)
    selling_agent := (resolveField agentSyns rowL).map fun v => String.mk (trimWs v)
    list_price := (resolveField priceSyns rowL).map sheetPriceOf
    status := resolveStatusSheet (resolveField statusSyns rowL) sheet
    workflow_type :=
      if containsSub "investor".data (lowerL sheet.data) then "Investor" else "Conventional" }

/-- The per-sheet batch: one record appended per row. -/
def processSheetData (rows : List (List (String × String))) (sheet : String) :
    List SheetRecord :=
  rows.map fun r => processSheetRow r sheet

/-! ## Spec-side definitions

These follow the wording of the specification, to be compared with the
definitions translated from the source. -/

/-- Spec wording of field resolution: the value of the first column (in
column order) matching the first synonym (in synonym order) that matches
any column; absence when no synonym matches any column. -/
def resolveFieldSpec (syns : List (List Char)) (row : List (List Char × List Char)) :
    Option (List Char) :=
  match syns.find? (fun f => row.any fun p => isSubstrCI f p.1) with
  | none => none
  | some f => (row.find? (fun p => isSubstrCI f p.1)).map fun p => p.2

/-- The address condition under which `parse_trident_properties` keeps a
row: the cell is present and its stripped text is non-empty and not
(case-insensitively) `nan`. -/
def goodAddress (r : TridentRow) : Bool :=
  match r.address with
  | none => false
  | some a =>
    let t := trimWs a.data
    !(t = []) && !(lowerL t = "nan".data)

/-- Most-significant-first decimal digits of a natural number, with
explicit fuel (the number of remaining divisions by ten). -/
def natDigitsFuel : Nat → Nat → List Char
  | 0, _ => []
  | fuel + 1, n =>
    if n < 10 then [digitChar n]
    else natDigitsFuel fuel (n / 10) ++ [digitChar (n % 10)]

/-- Decimal digits of a natural number. -/
def natDigits (n : Nat) : List Char := natDigitsFuel (n + 1) n

/-- The decimal rendering of an integer, as fed back to the price parser
in the idempotence property. -/
def renderInt (n : Int) : String :=
  if n < 0 then String.mk ('-' :: natDigits n.natAbs) else String.mk (natDigits n.toNat)

/-- Concrete witness row: a duplex listing with full pricing. -/
def r0 : TridentRow :=
  { address := some "123 Main St", status := some "Pre", singleMulti := some "Duplex",
    currentList := some "$250,000", startingList := some "260000", ucPrice := none,
    listingDate := none, closingDate := none, rented := some "Y" }

/-- The property record produced from `r0`. -/
def rec0 : PropRecord :=
  { address := "123 Main St", status := "Hold", propertyType := "Duplex",
    workflowType := "Investor", underContractPrice := none,
    startingListPrice := some 260000, currentListPrice := some 250000,
    listingDate := none, closingDate := none, isRented := true }

/-- Concrete witness row: current price cell `0`, starting price `180k`. -/
def r2 : TridentRow :=
  { address := some "12 Oak", status := none, singleMulti := none,
    currentList := some "0", startingList := some "180k", ucPrice := none,
    listingDate := none, closingDate := none, rented := none }

/-- The property record produced from `r2`. -/
def rec2 : PropRecord :=
  { address := "12 Oak", status := "Active", propertyType := "Single Family",
    workflowType := "Conventional", underContractPrice := none,
    startingListPrice := some 180000, currentListPrice := some 180000,
    listingDate := none, closingDate := none, isRented := false }

/-! ## Helper lemmas about digits and character-list operations -/

theorem digitChar_cases (k : Nat) :
    digitChar k = '0' ∨ digitChar k = '1' ∨ digitChar k = '2' ∨ digitChar k = '3' ∨
    digitChar k = '4' ∨ digitChar k = '5' ∨ digitChar k = '6' ∨ digitChar k = '7' ∨
    digitChar k = '8' ∨ digitChar k = '9' := by
  unfold digitChar; split <;> simp

theorem isWsChar_digitChar (k : Nat) : isWsChar (digitChar k) = false := by
  rcases digitChar_cases k with h | h | h | h | h | h | h | h | h | h <;> rw [h] <;> decide

theorem isDigitChar_digitChar (k : Nat) : isDigitChar (digitChar k) = true := by
  rcases digitChar_cases k with h | h | h | h | h | h | h | h | h | h <;> rw [h] <;> decide

theorem lowerChar_digitChar (k : Nat) : lowerChar (digitChar k) = digitChar k := by
  rcases digitChar_cases k with h | h | h | h | h | h | h | h | h | h <;> rw [h] <;> decide

theorem lowerChar_digitChar_ne_k (k : Nat) : lowerChar (digitChar k) ≠ 'k' := by
  rcases digitChar_cases k with h | h | h | h | h | h | h | h | h | h <;> rw [h] <;> decide

theorem digitChar_ne_dash (k : Nat) : digitChar k ≠ '-' := by
  rcases digitChar_cases k with h | h | h | h | h | h | h | h | h | h <;> rw [h] <;> decide

theorem digitChar_ne_plus (k : Nat) : digitChar k ≠ '+' := by
  rcases digitChar_cases k with h | h | h | h | h | h | h | h | h | h <;> rw [h] <;> decide

theorem digitChar_keep_price (k : Nat) :
    (!(digitChar k = '$' || digitChar k = ',')) = true := by
  rcases digitChar_cases k with h | h | h | h | h | h | h | h | h | h <;> rw [h] <;> decide

theorem digitVal_digitChar {k : Nat} (h : k < 10) : digitVal (digitChar k) = k := by
  interval_cases k <;> decide

theorem dropWhile_eq_self_of_all {p : Char → Bool} {l : List Char}
    (h : ∀ c ∈ l, p c = false) : l.dropWhile p = l := by
  cases l with
  | nil => rfl
  | cons c t => simp [List.dropWhile_cons, h c (by simp)]

theorem takeWhile_eq_self_of_all {p : Char → Bool} {l : List Char}
    (h : ∀ c ∈ l, p c = true) : l.takeWhile p = l := by
  induction l with
  | nil => rfl
  | cons c t ih =>
    simp [List.takeWhile_cons, h c (by simp)]
    exact fun x hx => h x (by simp [hx])

theorem dropWhile_eq_nil_of_all {p : Char → Bool} {l : List Char}
    (h : ∀ c ∈ l, p c = true) : l.dropWhile p = [] := by
  induction l with
  | nil => rfl
  | cons c t ih =>
    simp [List.dropWhile_cons, h c (by simp)]
    exact fun x hx => h x (by simp [hx])

theorem trimWs_eq_self_of_all {l : List Char} (h : ∀ c ∈ l, isWsChar c = false) :
    trimWs l = l := by
  unfold trimWs
  rw [dropWhile_eq_self_of_all h,
    dropWhile_eq_self_of_all (fun c hc => h c (List.mem_reverse.mp hc)),
    List.reverse_reverse]

theorem lowerL_eq_self_of_all {l : List Char} (h : ∀ c ∈ l, lowerChar c = c) :
    lowerL l = l := by
  unfold lowerL
  rw [List.map_congr_left h, List.map_id']

theorem endsWithK_eq_false {l : List Char} (h : ∀ c ∈ l, lowerChar c ≠ 'k') :
    endsWithK l = false := by
  unfold endsWithK
  cases hgl : (lowerL l).getLast? with
  | none => rfl
  | some c =>
    have hc : c ∈ lowerL l := List.mem_of_mem_getLast? hgl
    obtain ⟨c', hc', rfl⟩ := List.mem_map.mp hc
    simp [h c' hc']

theorem valDigits_append_digit (l : List Char) (c : Char) :
    valDigits (l ++ [c]) = 10 * valDigits l + digitVal c := by
  unfold valDigits
  rw [List.foldl_append]
  rfl

theorem lt_ten_pow (n : Nat) : n < 10 ^ (n + 1) := by
  induction n with
  | zero => decide
  | succ n ih =>
    have h2 : 10 ^ (n + 2) = 10 ^ (n + 1) * 10 := pow_succ 10 (n + 1)
    omega

theorem natDigitsFuel_ne_nil (fuel n : Nat) : natDigitsFuel (fuel + 1) n ≠ [] := by
  unfold natDigitsFuel
  split <;> simp

theorem mem_natDigitsFuel {fuel n : Nat} {c : Char} (h : c ∈ natDigitsFuel fuel n) :
    ∃ k, c = digitChar k := by
  induction fuel generalizing n with
  | zero => simp [natDigitsFuel] at h
  | succ fuel ih =>
    unfold natDigitsFuel at h
    by_cases h10 : n < 10
    · simp [h10] at h
      exact ⟨n, h⟩
    · simp [h10] at h
      rcases h with h | h
      · exact ih h
      · exact ⟨n % 10, h⟩

theorem valDigits_natDigitsFuel {fuel n : Nat} (h : n < 10 ^ fuel) :
    valDigits (natDigitsFuel fuel n) = n := by
  induction fuel generalizing n with
  | zero =>
    simp at h
    simp [natDigitsFuel, valDigits, h]
  | succ fuel ih =>
    unfold natDigitsFuel
    by_cases h10 : n < 10
    · simp [h10, valDigits, List.foldl, digitVal_digitChar h10]
    · have hdiv : n / 10 < 10 ^ fuel := by
        rw [pow_succ] at h
        omega
      rw [if_neg h10, valDigits_append_digit, ih hdiv,
        digitVal_digitChar (Nat.mod_lt n (by omega))]
      omega

theorem valDigits_natDigits (n : Nat) : valDigits (natDigits n) = n :=
  valDigits_natDigitsFuel (lt_ten_pow n)

theorem mem_natDigits {n : Nat} {c : Char} (h : c ∈ natDigits n) :
    ∃ k, c = digitChar k :=
  mem_natDigitsFuel h

theorem natDigits_ne_nil (n : Nat) : natDigits n ≠ [] :=
  natDigitsFuel_ne_nil n n

theorem splitSign_digits {l : List Char} (hne : l ≠ [])
    (h : ∀ c ∈ l, ∃ k, c = digitChar k) : splitSign l = (false, l) := by
  cases l with
  | nil => simp at hne
  | cons c t =>
    obtain ⟨k, rfl⟩ := h c (by simp)
    simp [splitSign, digitChar_ne_dash k, digitChar_ne_plus k]

theorem takeWhile_digits {l : List Char} (h : ∀ c ∈ l, ∃ k, c = digitChar k) :
    l.takeWhile isDigitChar = l :=
  takeWhile_eq_self_of_all fun c hc => by
    obtain ⟨k, rfl⟩ := h c hc; exact isDigitChar_digitChar k

theorem dropWhile_digits {l : List Char} (h : ∀ c ∈ l, ∃ k, c = digitChar k) :
    l.dropWhile isDigitChar = [] :=
  dropWhile_eq_nil_of_all fun c hc => by
    obtain ⟨k, rfl⟩ := h c hc; exact isDigitChar_digitChar k

theorem parseFloatCore_digits {l : List Char} (hne : l ≠ [])
    (h : ∀ c ∈ l, ∃ k, c = digitChar k) :
    parseFloatCore l = some ⟨(valDigits l : Nat), 1⟩ := by
  simp only [parseFloatCore, splitSign_digits hne h, takeWhile_digits h, dropWhile_digits h]
  rw [if_neg (by simp [hne])]
  simp [fracOfParts]
  rfl

theorem parseFloatCore_neg_digits {l : List Char} (hne : l ≠ [])
    (h : ∀ c ∈ l, ∃ k, c = digitChar k) :
    parseFloatCore ('-' :: l) = some ⟨-(valDigits l : Nat), 1⟩ := by
  have hs : splitSign ('-' :: l) = (true, l) := by simp [splitSign]
  simp only [parseFloatCore, hs, takeWhile_digits h, dropWhile_digits h]
  rw [if_neg (by simp [hne])]
  simp [fracOfParts]
  rfl

theorem parse_price_renderInt (n : Int) : parse_price (some (renderInt n)) = some n := by
  have digf : ∀ (m : Nat), ∀ c ∈ natDigits m, ∃ k, c = digitChar k :=
    fun _ _ hc => mem_natDigits hc
  have trimf : ∀ m : Nat, trimWs (natDigits m) = natDigits m := fun m =>
    trimWs_eq_self_of_all fun c hc => by
      obtain ⟨k, rfl⟩ := mem_natDigits hc; exact isWsChar_digitChar k
  have keepf : ∀ m : Nat,
      (natDigits m).filter (fun c => !(c = '$' || c = ',')) = natDigits m := fun m =>
    List.filter_eq_self.mpr fun c hc => by
      obtain ⟨k, rfl⟩ := mem_natDigits hc; exact digitChar_keep_price k
  have kf : ∀ m : Nat, endsWithK (natDigits m) = false := fun m =>
    endsWithK_eq_false fun c hc => by
      obtain ⟨k, rfl⟩ := mem_natDigits hc; exact lowerChar_digitChar_ne_k k
  by_cases hn : n < 0
  · rw [renderInt, if_pos hn]
    have hnws : ∀ c ∈ '-' :: natDigits n.natAbs, isWsChar c = false := by
      intro c hc
      rcases List.mem_cons.mp hc with rfl | hc
      · decide
      · obtain ⟨k, rfl⟩ := mem_natDigits hc; exact isWsChar_digitChar k
    have htrim : trimWs ('-' :: natDigits n.natAbs) = '-' :: natDigits n.natAbs :=
      trimWs_eq_self_of_all hnws
    have hfil : ('-' :: natDigits n.natAbs).filter (fun c => !(c = '$' || c = ',')) =
        '-' :: natDigits n.natAbs := by
      simp [List.filter_cons, keepf]
      intro a ha
      obtain ⟨k, rfl⟩ := mem_natDigits ha
      have hk := digitChar_keep_price k
      simpa using hk
    have hkf : endsWithK ('-' :: natDigits n.natAbs) = false := by
      apply endsWithK_eq_false
      intro c hc
      rcases List.mem_cons.mp hc with rfl | hc
      · decide
      · obtain ⟨k, rfl⟩ := mem_natDigits hc; exact lowerChar_digitChar_ne_k k
    show parse_price (some (String.mk ('-' :: natDigits n.natAbs))) = some n
    simp only [parse_price]
    rw [htrim, if_neg (by simp)]
    simp only [cleanPrice, hfil, htrim, hkf]
    rw [if_neg (by simp)]
    simp only [pyFloat, htrim,
      parseFloatCore_neg_digits (natDigits_ne_nil n.natAbs) (digf n.natAbs),
      Option.map_some]
    simp [truncF, Int.tdiv_one, valDigits_natDigits]
    rw [abs_of_neg hn]
    ring
  · rw [renderInt, if_neg hn]
    show parse_price (some (String.mk (natDigits n.toNat))) = some n
    simp only [parse_price]
    rw [trimf, if_neg (natDigits_ne_nil n.toNat)]
    simp only [cleanPrice, keepf, trimf, kf]
    rw [if_neg (by simp)]
    simp only [pyFloat, trimf,
      parseFloatCore_digits (natDigits_ne_nil n.toNat) (digf n.toNat), Option.map_some]
    simp [truncF, Int.tdiv_one, valDigits_natDigits]
    omega

theorem isDigitChar_dash : isDigitChar '-' = false := by decide

theorem not_isWsChar_dash : isWsChar '-' = false := by decide

theorem mem_renderYMD {y m d : Nat} {c : Char} (h : c ∈ renderYMD y m d) :
    c = '-' ∨ ∃ k, c = digitChar k := by
  simp [renderYMD, pad4, pad2] at h
  rcases h with h | h | h | h | h | h | h | h | h | h <;>
    first
      | exact Or.inl h
      | exact Or.inr ⟨_, h⟩

theorem takeWhile_append_not {p : Char → Bool} {ds rest : List Char}
    (h : ∀ c ∈ ds, p c = true) (h2 : ∀ c, rest.head? = some c → p c = false) :
    (ds ++ rest).takeWhile p = ds ∧ (ds ++ rest).dropWhile p = rest := by
  induction ds with
  | nil =>
    cases rest with
    | nil => simp
    | cons c t => simp [List.takeWhile_cons, List.dropWhile_cons, h2 c rfl]
  | cons a ds ih =>
    have ha : p a = true := h a (by simp)
    have := ih (fun c hc => h c (by simp [hc]))
    simp [List.cons_append, List.takeWhile_cons, List.dropWhile_cons, ha, this.1, this.2]

theorem mem_pad4 {y : Nat} {c : Char} (h : c ∈ pad4 y) : ∃ k, c = digitChar k := by
  simp [pad4] at h
  rcases h with rfl | rfl | rfl | rfl <;> exact ⟨_, rfl⟩

theorem mem_pad2 {m : Nat} {c : Char} (h : c ∈ pad2 m) : ∃ k, c = digitChar k := by
  simp [pad2] at h
  rcases h with rfl | rfl <;> exact ⟨_, rfl⟩

theorem valDigits_pad4 {y : Nat} (hy : y ≤ 9999) : valDigits (pad4 y) = y := by
  have h1 : y / 1000 < 10 := by omega
  have h2 : y / 100 % 10 < 10 := Nat.mod_lt _ (by omega)
  have h3 : y / 10 % 10 < 10 := Nat.mod_lt _ (by omega)
  have h4 : y % 10 < 10 := Nat.mod_lt _ (by omega)
  simp [valDigits, pad4, digitVal_digitChar h1, digitVal_digitChar h2,
    digitVal_digitChar h3, digitVal_digitChar h4]
  omega

theorem valDigits_pad2 {m : Nat} (hm : m ≤ 99) : valDigits (pad2 m) = m := by
  have h1 : m / 10 < 10 := by omega
  have h2 : m % 10 < 10 := Nat.mod_lt _ (by omega)
  simp [valDigits, pad2, digitVal_digitChar h1, digitVal_digitChar h2]
  omega

theorem matchYMD_renderYMD {y m d : Nat} (hy : y ≤ 9999) (hm : m ≤ 99) (hd : d ≤ 99) :
    matchYMD '-' (renderYMD y m d) = some (y, m, d) := by
  have hp4 : ∀ c ∈ pad4 y, isDigitChar c = true := fun c hc => by
    obtain ⟨k, rfl⟩ := mem_pad4 hc; exact isDigitChar_digitChar k
  have hp2m : ∀ c ∈ pad2 m, isDigitChar c = true := fun c hc => by
    obtain ⟨k, rfl⟩ := mem_pad2 hc; exact isDigitChar_digitChar k
  have hp2d : ∀ c ∈ pad2 d, isDigitChar c = true := fun c hc => by
    obtain ⟨k, rfl⟩ := mem_pad2 hc; exact isDigitChar_digitChar k
  obtain ⟨ht1, hd1⟩ :=
    @takeWhile_append_not isDigitChar (pad4 y) ('-' :: (pad2 m ++ '-' :: pad2 d)) hp4
      (fun c hc => by cases hc; exact isDigitChar_dash)
  obtain ⟨ht2, hd2⟩ :=
    @takeWhile_append_not isDigitChar (pad2 m) ('-' :: pad2 d) hp2m
      (fun c hc => by cases hc; exact isDigitChar_dash)
  have ht3 : (pad2 d).takeWhile isDigitChar = pad2 d := takeWhile_eq_self_of_all hp2d
  have hd3 : (pad2 d).dropWhile isDigitChar = [] := dropWhile_eq_nil_of_all hp2d
  have hlen4 : (pad4 y).length = 4 := by simp [pad4]
  have hlen2m : (pad2 m).length = 2 := by simp [pad2]
  have hlen2d : (pad2 d).length = 2 := by simp [pad2]
  show matchYMD '-' (pad4 y ++ '-' :: (pad2 m ++ '-' :: pad2 d)) = some (y, m, d)
  simp only [matchYMD, takeNum, ht1, hd1, ht2, hd2, ht3, hd3, hlen4, hlen2m, hlen2d]
  norm_num
  exact ⟨valDigits_pad4 hy, valDigits_pad2 hm, valDigits_pad2 hd⟩

theorem daysInMonth_le_31 (y m : Nat) : daysInMonth y m ≤ 31 := by
  unfold daysInMonth
  split_ifs <;> omega

theorem parse_date_renderYMD {y m d : Nat} (h1 : 1 ≤ y) (h2 : y ≤ 9999) (h3 : 1 ≤ m)
    (h4 : m ≤ 12) (h5 : 1 ≤ d) (h6 : d ≤ daysInMonth y m) :
    parse_date (some (String.mk (renderYMD y m d))) =
      some (String.mk (renderYMD y m d)) := by
  have hm99 : m ≤ 99 := by omega
  have hd99 : d ≤ 99 := by
    have := daysInMonth_le_31 y m
    omega
  have hnws : ∀ c ∈ renderYMD y m d, isWsChar c = false := fun c hc => by
    rcases mem_renderYMD hc with rfl | ⟨k, rfl⟩
    · exact not_isWsChar_dash
    · exact isWsChar_digitChar k
  have htrim : trimWs (renderYMD y m d) = renderYMD y m d := trimWs_eq_self_of_all hnws
  have htok : (renderYMD y m d).takeWhile (fun c => !isWsChar c) = renderYMD y m d :=
    takeWhile_eq_self_of_all fun c hc => by simp [hnws c hc]
  have hlen : (renderYMD y m d).length = 10 := by simp [renderYMD, pad4, pad2]
  have hne : renderYMD y m d ≠ [] := by
    intro hEq
    rw [hEq] at hlen
    simp at hlen
  have hnan : ¬lowerL (renderYMD y m d) = "nan".data := by
    intro hEq
    have h10 : (lowerL (renderYMD y m d)).length = 10 := by simp [lowerL, hlen]
    rw [hEq] at h10
    exact absurd h10 (by decide)
  have hval : validYMD y m d = true := by
    simp [validYMD]
    omega
  have htf : tryFormats (renderYMD y m d) = some (y, m, d) := by
    simp only [tryFormats, matchYMD_renderYMD h2 hm99 hd99, Option.some_bind, checkYMD, hval]
    simp [Option.orElse]
  show parse_date (some (String.mk (renderYMD y m d))) = some (String.mk (renderYMD y m d))
  simp only [parse_date]
  rw [htrim, if_neg (by simp [hne, hnan]), htok, htf]

theorem findCol_eq_find? (f : List Char) (row : List (List Char × List Char)) :
    findCol f row = (row.find? (fun p => isSubstrCI f p.1)).map fun p => p.2 := by
  induction row with
  | nil => rfl
  | cons p rest ih =>
    by_cases h : isSubstrCI f p.1 = true
    · simp [findCol, h, List.find?_cons_of_pos]
    · rw [List.find?_cons_of_neg _ (by simp [h])]
      simp only [findCol, h]
      simpa using ih

theorem resolveField_eq_spec (syns : List (List Char))
    (row : List (List Char × List Char)) :
    resolveField syns row = resolveFieldSpec syns row := by
  induction syns with
  | nil => rfl
  | cons f fs ih =>
    simp only [resolveField, resolveFieldSpec, findCol_eq_find?]
    by_cases h : (row.any fun p => isSubstrCI f p.1) = true
    · rw [show List.find? (fun g => row.any fun p => isSubstrCI g p.1) (f :: fs) = some f
        from List.find?_cons_of_pos _ h]
      obtain ⟨x, hx, hpx⟩ := List.any_eq_true.mp h
      obtain ⟨p, hp⟩ : ∃ p, row.find? (fun p => isSubstrCI f p.1) = some p := by
        rw [← Option.isSome_iff_exists, List.find?_isSome]
        exact ⟨x, hx, hpx⟩
      simp [hp]
    · rw [show List.find? (fun g => row.any fun p => isSubstrCI g p.1) (f :: fs) =
          List.find? (fun g => row.any fun p => isSubstrCI g p.1) fs
        from List.find?_cons_of_neg _ (by simpa using h)]
      have hnone : row.find? (fun p => isSubstrCI f p.1) = none := by
        rw [List.find?_eq_none]
        intro x hx
        intro hc
        exact h (List.any_eq_true.mpr ⟨x, hx, hc⟩)
      rw [hnone]
      simpa [resolveFieldSpec] using ih

theorem processTridentRow_fields {r : TridentRow} {rec : PropRecord}
    (h : processTridentRow r = some rec) :
    rec.status = resolveStatusTrident (cellStr r.status) ∧
    rec.propertyType = propertyTypeOf (cellStr r.singleMulti) ∧
    rec.workflowType =
      (if rec.propertyType = "Duplex" ∨ rec.propertyType = "Commercial"
       then "Investor" else "Conventional") ∧
    rec.startingListPrice = parse_price r.startingList ∧
    rec.currentListPrice = pyOr (parse_price r.currentList) (parse_price r.startingList) := by
  cases ha : r.address with
  | none => simp [processTridentRow, ha] at h
  | some a0 =>
    simp only [processTridentRow, ha] at h
    by_cases he : trimWs a0.data = []
    · rw [if_pos he] at h; exact absurd h (by simp)
    · rw [if_neg he] at h
      by_cases hn : lowerL (trimWs a0.data) = "nan".data
      · rw [if_pos hn] at h; exact absurd h (by simp)
      · rw [if_neg hn] at h
        injection h with h2
        subst h2
        exact ⟨rfl, rfl, rfl, rfl, rfl⟩

theorem processTridentRow_isSome (r : TridentRow) :
    (processTridentRow r).isSome = goodAddress r := by
  cases ha : r.address with
  | none => simp [processTridentRow, goodAddress, ha]
  | some a0 =>
    by_cases he : trimWs a0.data = []
    · simp [processTridentRow, goodAddress, ha, he]
    · by_cases hn : lowerL (trimWs a0.data) = "nan".data
      · simp [processTridentRow, goodAddress, ha, he, hn]
      · simp [processTridentRow, goodAddress, ha, he, hn]

/-! ## Claim theorems -/

/-- C1 counterexample: a row with no address column still makes
`process_sheet_data` emit exactly one property record (with the address
field absent), contradicting the claim that rows with a missing address
emit none. -/
theorem c1_counterexample :
    (processSheetData [[("Name", "Widget")]] "Sheet1").length = 1 ∧
    (processSheetRow [("Name", "Widget")] "Sheet1").address = none := by
  exact ⟨rfl, rfl⟩

/-- C1 (amended): in `parse_trident_properties` a row emits a property
record exactly when its address cell is present, non-empty after
stripping and not case-insensitively `nan`; `process_sheet_data` emits
exactly one record for every row regardless of the address. -/
theorem c1_address_gate :
    (∀ r : TridentRow, (processTridentRow r).isSome = goodAddress r) ∧
    (∀ (row : List (String × String)) (sheet : String),
      (processSheetData [row] sheet).length = 1) :=
  ⟨processTridentRow_isSome, fun _ _ => rfl⟩

/-- C2 counterexample: on a sheet whose name contains `investor`,
`process_sheet_data` emits a record with `workflow_type = "Investor"`
although the record carries no `propertyType` field at all, so
`workflowType = Investor` does not imply `propertyType ∈ {Duplex,
Commercial}` for every emitted record. -/
theorem c2_counterexample :
    (processSheetRow [] "Investor Deals").workflow_type = "Investor" ∧
    sheetRecPropertyType (processSheetRow [] "Investor Deals") ≠ some "Duplex" ∧
    sheetRecPropertyType (processSheetRow [] "Investor Deals") ≠ some "Commercial" := by
  refine ⟨rfl, ?_, ?_⟩ <;> simp [sheetRecPropertyType]

/-- C2 (amended): every record of `parse_trident_properties` satisfies
`workflowType = Investor ↔ propertyType ∈ {Duplex, Commercial}`, while a
record of `process_sheet_data` has `workflow_type = Investor` iff the
sheet name contains `investor` case-insensitively. -/
theorem c2_workflow_invariant :
    (∀ (r : TridentRow) (rec : PropRecord), processTridentRow r = some rec →
      (rec.workflowType = "Investor" ↔
        rec.propertyType = "Duplex" ∨ rec.propertyType = "Commercial")) ∧
    (∀ (row : List (String × String)) (sheet : String),
      ((processSheetRow row sheet).workflow_type = "Investor" ↔
        containsSub "investor".data (lowerL sheet.data) = true)) := by
  constructor
  · intro r rec h
    obtain ⟨-, -, hwf, -, -⟩ := processTridentRow_fields h
    rw [hwf]
    by_cases hpt : rec.propertyType = "Duplex" ∨ rec.propertyType = "Commercial"
    · simp [hpt]
    · simp [hpt]
  · intro row sheet
    simp only [processSheetRow]
    by_cases hc : containsSub "investor".data (lowerL sheet.data) = true
    · simp [hc]
    · simp [hc]

/-- C2 witness: the duplex row `r0` yields the record `rec0`, and the
workflow/property-type equivalence of the theorem holds on it. -/
theorem c2_workflow_witness :
    processTridentRow r0 = some rec0 ∧
    (rec0.workflowType = "Investor" ↔
      rec0.propertyType = "Duplex" ∨ rec0.propertyType = "Commercial") := by
  have h : processTridentRow r0 = some rec0 := by decide
  exact ⟨h, c2_workflow_invariant.1 r0 rec0 h⟩

/-- C3 counterexample: `process_sheet_data` applies no keyword mapping
to the raw status text, so a raw status `UC` is kept as `UC` instead of
the claimed `Under Contract`. -/
theorem c3_counterexample :
    (processSheetRow [("Status", "UC")] "Properties").status = "UC" ∧
    (processSheetRow [("Status", "UC")] "Properties").status ≠ "Under Contract" := by
  exact ⟨rfl, by decide⟩

/-- C3 (amended): `parse_trident_properties` maps `pre` to `Hold`, `uc`
or text containing `contract` to `Under Contract`, empty or `nan` to
`Active` (never consulting a sheet name) and keeps anything else
verbatim; `process_sheet_data` keeps a non-empty stripped raw status
verbatim and only an unset or empty status falls back to the sheet-name
inspection.  In particular raw `UC` and `Pre` are normalized only on the
trident path, and raw empty on sheet `Closed Listings` resolves to
`Closed` on the sheet path. -/
theorem c3_status_resolution :
    (∀ raw : String, resolveStatusTrident raw =
      (let s := trimWs raw.data
       let ls := lowerL s
       if ls = "pre".data then "Hold"
       else if ls = "uc".data ∨ containsSub "contract".data ls then "Under Contract"
       else if ls = "nan".data ∨ s = [] then "Active"
       else String.mk s)) ∧
    (∀ raw sheet : String,
      (processSheetRow [("Status", raw)] sheet).status =
        if trimWs raw.data = [] then sheetFallback sheet
        else String.mk (trimWs raw.data)) ∧
    resolveStatusTrident "UC" = "Under Contract" ∧
    resolveStatusTrident "Pre" = "Hold" ∧
    resolveStatusTrident "" = "Active" ∧
    (processSheetRow [("Status", "")] "Closed Listings").status = "Closed" := by
  refine ⟨fun raw => rfl, ?_, by decide, by decide, by decide, by decide⟩
  intro raw sheet
  have hm : isSubstrCI "status".data "Status".data = true := by decide
  simp only [processSheetRow, statusSyns, resolveField, findCol, List.map, hm,
    if_true, resolveStatusSheet]

/-- C4 counterexample: the price handling of `process_sheet_data`
(the second code location the claim cites) stores the cleaned raw
string when `float()` fails — so `n/a` is stored as the string `n/a`
rather than being absent — and has no `k` handling, so `180k` is stored
as the string `180k` rather than the integer 180000. -/
theorem c4_counterexample :
    (processSheetRow [("Price", "n/a")] "Sheet1").list_price =
      some (SheetPrice.raw "n/a") ∧
    (processSheetRow [("Price", "180k")] "Sheet1").list_price =
      some (SheetPrice.raw "180k") := by
  exact ⟨rfl, rfl⟩

/-- C4 (amended): `parse_price` of `parse_trident_properties` strips `$`
and `,`, multiplies by 1000 on a trailing `k`/`K`, truncates the parsed
float to an integer, and yields absence — never zero, never an error,
never the raw string — on empty or non-numeric input; `$250,000` gives
250000, `180k` gives 180000 and `n/a` is absent.  The price handling of
`process_sheet_data` strips `$` and `,` but applies no `k` handling and
no truncation: empty text stores `None`, a parsed float is stored
unconverted, and on a `float()` failure the cleaned raw string itself
is stored. -/
theorem c4_price_parsing :
    parse_price (some "$250,000") = some 250000 ∧
    parse_price (some "180k") = some 180000 ∧
    parse_price (some "n/a") = none ∧
    parse_price none = none ∧
    (∀ s : String, trimWs s.data = [] → parse_price (some s) = none) ∧
    (∀ s : String, trimWs s.data ≠ [] → endsWithK (cleanPrice s.data) = true →
      parse_price (some s) =
        (pyFloat (cleanPrice s.data).dropLast).map fun q => truncF (mul1000 q)) ∧
    (∀ s : String, trimWs s.data ≠ [] → endsWithK (cleanPrice s.data) = false →
      parse_price (some s) = (pyFloat (cleanPrice s.data)).map truncF) ∧
    (∀ v : List Char, cleanPrice v = [] → sheetPriceOf v = SheetPrice.absent) ∧
    (∀ (v : List Char) (q : Frac), pyFloat (cleanPrice v) = some q →
      sheetPriceOf v = SheetPrice.num q) ∧
    (∀ v : List Char, cleanPrice v ≠ [] → pyFloat (cleanPrice v) = none →
      sheetPriceOf v = SheetPrice.raw (String.mk (cleanPrice v))) ∧
    (∀ raw sheet : String,
      (processSheetRow [("Price", raw)] sheet).list_price =
        some (sheetPriceOf raw.data)) := by
  refine ⟨by decide, by decide, by decide, rfl, ?_, ?_, ?_, ?_, ?_, ?_, ?_⟩
  · intro s h
    simp [parse_price, h]
  · intro s h hk
    simp [parse_price, h, hk]
  · intro s h hk
    simp [parse_price, h, hk]
  · intro v h
    simp [sheetPriceOf, h]
  · intro v q h
    have hne : cleanPrice v ≠ [] := by
      intro hEq
      rw [hEq, show pyFloat ([] : List Char) = none from rfl] at h
      exact Option.noConfusion h
    simp [sheetPriceOf, hne, h]
  · intro v hne h
    simp [sheetPriceOf, hne, h]
  · intro raw sheet
    have hm : isSubstrCI "price".data "Price".data = true := by decide
    simp only [processSheetRow, priceSyns, resolveField, findCol, List.map, hm,
      if_true]
    rfl

/-- C4 witness: the `k`-suffix clause of the theorem applied to the
concrete input `7k`. -/
theorem c4_price_witness : parse_price (some "7k") = some 7000 := by
  have h := c4_price_parsing.2.2.2.2.2.1 "7k" (by decide) (by decide)
  rw [h]
  decide

/-- C5: task generation is a pure function of the resolved status:
`Hold`, `Active` and `Under Contract` each yield exactly one task with
the fixed title, priority and category, and every other status yields
none. -/
theorem c5_task_generation (pid today : String) :
    generate_tasks_for_property pid "Hold" today =
      [{ id := pid ++ "_task_1", title := "Complete Pre-Listing Preparation",
         description := "Property is on hold - complete all pre-listing requirements",
         dueDate := today, priority := "High", status := "Pending",
         category := "Listing Prep", propertyId := pid,
         taskType := "listing-prep", isAutoGenerated := true }] ∧
    generate_tasks_for_property pid "Active" today =
      [{ id := pid ++ "_task_2", title := "Monitor Active Listing Performance",
         description := "Track showing activity and market response",
         dueDate := today, priority := "Medium", status := "Pending",
         category := "Listing Prep", propertyId := pid,
         taskType := "listing-prep", isAutoGenerated := true }] ∧
    generate_tasks_for_property pid "Under Contract" today =
      [{ id := pid ++ "_task_3", title := "Manage Contract Contingencies",
         description := "Track inspection, appraisal, and financing deadlines",
         dueDate := today, priority := "Urgent", status := "Pending",
         category := "Under Contract", propertyId := pid,
         taskType := "under-contract", isAutoGenerated := true }] ∧
    (∀ st : String, st ≠ "Hold" → st ≠ "Active" → st ≠ "Under Contract" →
      generate_tasks_for_property pid st today = []) := by
  refine ⟨by simp [generate_tasks_for_property], by simp [generate_tasks_for_property],
    by simp [generate_tasks_for_property], ?_⟩
  intro st h1 h2 h3
  unfold generate_tasks_for_property
  rw [if_neg h1, if_neg h2, if_neg h3]

/-- C5 witness: the statuses `Pending` and `Closed` generate no task. -/
theorem c5_task_witness :
    generate_tasks_for_property "p1" "Closed" "2024-05-01" = [] ∧
    generate_tasks_for_property "p1" "Pending" "2024-05-01" = [] :=
  ⟨(c5_task_generation "p1" "2024-05-01").2.2.2 "Closed"
      (by decide) (by decide) (by decide),
    (c5_task_generation "p1" "2024-05-01").2.2.2 "Pending"
      (by decide) (by decide) (by decide)⟩

/-- C6: a row whose processing is aborted (the per-row `except` catches
the raised error) contributes nothing to the batch accumulators: the
batch output equals the output with that row absent. -/
theorem c6_failed_row_isolation (xs ys : List (Option (PropRecord × List TaskRec))) :
    runBatch (xs ++ none :: ys) = runBatch (xs ++ ys) := by
  unfold runBatch
  rw [List.foldl_append, List.foldl_append, List.foldl_cons]

/-- C7: the nested-loop field resolution of `process_sheet_data` equals
its specification: the value of the first column (in column order)
matching the first synonym (in synonym order) that matches any column,
and absence when no synonym matches any column. -/
theorem c7_field_resolution :
    ∀ (syns : List (List Char)) (row : List (List Char × List Char)),
      resolveField syns row = resolveFieldSpec syns row :=
  resolveField_eq_spec

/-- C8: price parsing is idempotent on its own output: when parsing
succeeds with integer `n`, re-parsing the decimal rendering of `n`
yields `n` again. -/
theorem c8_price_idempotent :
    ∀ (v : Option String) (n : Int), parse_price v = some n →
      parse_price (some (renderInt n)) = some n :=
  fun _ n _ => parse_price_renderInt n

/-- C8 witness: `2.5` parses (truncating) to 2 and re-parsing the
rendering of 2 gives 2. -/
theorem c8_price_witness :
    parse_price (some "2.5") = some 2 ∧
    parse_price (some (renderInt 2)) = some 2 := by
  have h1 : parse_price (some "2.5") = some 2 := by decide
  exact ⟨h1, c8_price_idempotent (some "2.5") 2 h1⟩

/-- C9: a valid calendar date already written in zero-padded
`YYYY-MM-DD` form parses to itself. -/
theorem c9_date_roundtrip :
    ∀ y m d : Nat, 1 ≤ y → y ≤ 9999 → 1 ≤ m → m ≤ 12 → 1 ≤ d →
      d ≤ daysInMonth y m →
      parse_date (some (String.mk (renderYMD y m d))) =
        some (String.mk (renderYMD y m d)) :=
  fun _ _ _ h1 h2 h3 h4 h5 h6 => parse_date_renderYMD h1 h2 h3 h4 h5 h6

/-- C9 witness: the leap-day date 2024-02-29 round-trips. -/
theorem c9_date_witness :
    parse_date (some (String.mk (renderYMD 2024 2 29))) =
      some (String.mk (renderYMD 2024 2 29)) :=
  c9_date_roundtrip 2024 2 29 (by decide) (by decide) (by decide) (by decide)
    (by decide) (by decide)

/-- C10: `currentListPrice` is the Python `or` of the parsed current and
starting prices, so a current price that is absent or parses to 0 is
replaced by the parsed starting price, while `startingListPrice` always
carries the parsed starting value unchanged. -/
theorem c10_current_price_fallback :
    (∀ a b : Option Int, pyOr a b = if a = none ∨ a = some 0 then b else a) ∧
    (∀ (r : TridentRow) (rec : PropRecord), processTridentRow r = some rec →
      rec.startingListPrice = parse_price r.startingList ∧
      rec.currentListPrice =
        (if parse_price r.currentList = none ∨ parse_price r.currentList = some 0
         then parse_price r.startingList
         else parse_price r.currentList)) := by
  constructor
  · intro a b
    rfl
  · intro r rec h
    obtain ⟨-, -, -, hsp, hcp⟩ := processTridentRow_fields h
    exact ⟨hsp, by rw [hcp]; rfl⟩

/-- C10 witness: in row `r2` the current price cell parses to 0 and the
emitted `currentListPrice` is the starting price 180000. -/
theorem c10_current_price_witness :
    processTridentRow r2 = some rec2 ∧ rec2.currentListPrice = some 180000 := by
  have h : processTridentRow r2 = some rec2 := by decide
  have h2 := (c10_current_price_fallback.2 r2 rec2 h).2
  exact ⟨h, by rw [h2]; decide⟩

end PropertyDashboard
